import Mathlib

/-!
Shallow embedding of `src/analysis.rs` (uciengine): fixed-capacity byte
buffers (`UciBuff`, `PvBuff`, here a single `StrBuff` type used with an
explicit capacity argument) and the `AnalysisInfo` line decoder.

Rust strings are modelled as `List Char` (each `Char` is one Unicode scalar
value); their byte representation is computed by an explicit UTF-8 encoder.
Operations whose Rust counterpart can fail fatally (slice copies that can go
out of bounds, reconstruction of text from raw bytes) return `Option`, with
`none` standing for the fatal failure.  The target is 64-bit, so `usize`
parses with the same bounds as `u64`.
-/

/-- UTF-8 encoding of one Unicode scalar value, as the list of its byte
values (division/modulo arithmetic mirrors the bit-level layout). -/
def utf8EncodeChar (c : Char) : List Nat :=
  if c.toNat < 128 then
    [c.toNat]
  else if c.toNat < 2048 then
    [192 + c.toNat / 64, 128 + c.toNat % 64]
  else if c.toNat < 65536 then
    [224 + c.toNat / 4096, 128 + c.toNat / 64 % 64, 128 + c.toNat % 64]
  else
    [240 + c.toNat / 262144, 128 + c.toNat / 4096 % 64,
     128 + c.toNat / 64 % 64, 128 + c.toNat % 64]

/-- UTF-8 encoding of a string (list of scalar values) as its byte list. -/
def utf8Encode : List Char → List Nat
  | [] => []
  | c :: cs => utf8EncodeChar c ++ utf8Encode cs

/-- Strict decoding of one UTF-8 scalar value from the front of a byte
list, as performed by Rust's `std::str::from_utf8`: rejects truncated
sequences, stray continuation bytes, overlong encodings, surrogates and
values above U+10FFFF.  Returns the scalar and the remaining bytes. -/
def utf8DecodeOne : List Nat → Option (Char × List Nat)
  | [] => none
  | b0 :: rest =>
    if b0 < 128 then
      some (Char.ofNat b0, rest)
    else if b0 < 194 then
      none
    else if b0 < 224 then
      match rest with
      | b1 :: rest1 =>
        if 128 ≤ b1 ∧ b1 < 192 then
          some (Char.ofNat ((b0 - 192) * 64 + (b1 - 128)), rest1)
        else none
      | [] => none
    else if b0 < 240 then
      match rest with
      | b1 :: b2 :: rest2 =>
        if (128 ≤ b1 ∧ b1 < 192) ∧ (128 ≤ b2 ∧ b2 < 192) then
          if 2048 ≤ (b0 - 224) * 4096 + (b1 - 128) * 64 + (b2 - 128) ∧
              ((b0 - 224) * 4096 + (b1 - 128) * 64 + (b2 - 128) < 55296 ∨
               57343 < (b0 - 224) * 4096 + (b1 - 128) * 64 + (b2 - 128)) then
            some (Char.ofNat ((b0 - 224) * 4096 + (b1 - 128) * 64 + (b2 - 128)), rest2)
          else none
        else none
      | _ => none
    else if b0 < 245 then
      match rest with
      | b1 :: b2 :: b3 :: rest3 =>
        if (128 ≤ b1 ∧ b1 < 192) ∧ (128 ≤ b2 ∧ b2 < 192) ∧ (128 ≤ b3 ∧ b3 < 192) then
          if 65536 ≤ (b0 - 240) * 262144 + (b1 - 128) * 4096 + (b2 - 128) * 64 + (b3 - 128) ∧
              (b0 - 240) * 262144 + (b1 - 128) * 4096 + (b2 - 128) * 64 + (b3 - 128) < 1114112 then
            some (Char.ofNat
              ((b0 - 240) * 262144 + (b1 - 128) * 4096 + (b2 - 128) * 64 + (b3 - 128)), rest3)
          else none
        else none
      | _ => none
    else none

/-- Iterated scalar decoding.  The first argument is fuel bounding the
number of scalars decoded; each scalar consumes at least one byte, so fuel
equal to the byte count always suffices and the fuel-exhausted branch is
unreachable from `utf8Decode`. -/
def utf8DecodeAux : Nat → List Nat → Option (List Char)
  | _, [] => some []
  | 0, _ :: _ => none
  | fuel + 1, b0 :: rest =>
    match utf8DecodeOne (b0 :: rest) with
    | none => none
    | some (c, rest2) => (utf8DecodeAux fuel rest2).map (fun cs => c :: cs)

/-- Full strict UTF-8 decoding of a byte list; `none` models the `Err`
that `.unwrap()` turns into a fatal failure. -/
def utf8Decode (bs : List Nat) : Option (List Char) :=
  utf8DecodeAux bs.length bs

/-- `UCI_MAX_LENGTH` from the source: capacity of `UciBuff`. -/
def UCI_MAX_LENGTH : Nat := 5

/-- `UCI_TYPICAL_LENGTH` from the source. -/
def UCI_TYPICAL_LENGTH : Nat := 4

/-- `MAX_PV_MOVES` from the source. -/
def MAX_PV_MOVES : Nat := 2

/-- `PV_BUFF_SIZE = MAX_PV_MOVES * (UCI_TYPICAL_LENGTH + 1) = 10`:
capacity of `PvBuff`. -/
def PV_BUFF_SIZE : Nat := MAX_PV_MOVES * (UCI_TYPICAL_LENGTH + 1)

/-- The fixed-capacity byte buffer generated by `gen_str_buff!`: a length
and the backing byte array.  `UciBuff` and `PvBuff` differ only in the
array's size, so the capacity is passed explicitly to each operation and
the invariant `buff.length = capacity` is carried where needed. -/
structure StrBuff where
  len : Nat
  buff : List Nat
deriving DecidableEq, Repr

/-- `new()`: zero length, zero-filled backing array of the given capacity. -/
def StrBuff.new (N : Nat) : StrBuff :=
  { len := 0, buff := List.replicate N 0 }

/-- `dst[0..len].copy_from_slice(&src[0..len])`: both slicings fail fatally
(index out of range) unless `len` is within both lengths; on success the
first `len` bytes of `dst` are replaced by the first `len` bytes of `src`. -/
def copyInto (dst : List Nat) (src : List Nat) (len : Nat) : Option (List Nat) :=
  if len ≤ dst.length ∧ len ≤ src.length then
    some (src.take len ++ dst.drop len)
  else none

/-- The truncated length computed by `From<&str>` and by `set`:
the byte length of the input, capped at the capacity. -/
def fromLen (N : Nat) (s : List Char) : Nat :=
  if (utf8Encode s).length > N then N else (utf8Encode s).length

/-- `impl From<&str>`: start from `new()`, store the capped length and copy
that many leading bytes of the input. -/
def strBuffFrom? (N : Nat) (s : List Char) : Option StrBuff :=
  (copyInto (StrBuff.new N).buff (utf8Encode s) (fromLen N s)).map
    (fun buf => { len := fromLen N s, buff := buf })

/-- `set`: same copy as `From<&str>` but into the existing backing array. -/
def strBuffSet? (N : Nat) (b : StrBuff) (value : List Char) : Option StrBuff :=
  (copyInto b.buff (utf8Encode value) (fromLen N value)).map
    (fun buf => { len := fromLen N value, buff := buf })

/-- The value of `total_len` after `set_trim`'s reverse scan: starting from
the byte length, one decrement per character consumed from the end, where
the scan consumes while the character differs from `trim` or the running
length still exceeds the capacity (the decrement of the first refused
character has already happened when the scan stops). -/
def setTrimTotal (N : Nat) (trim : Char) : List Char → Nat → Nat
  | [], total => total
  | c :: rest, total =>
    if c ≠ trim ∨ N < total - 1 then setTrimTotal N trim rest (total - 1)
    else total - 1

/-- `set_trim`: computes the trimmed length by the reverse scan (the
collected string itself is discarded in the source), then copies that many
leading bytes; the copy fails fatally when the computed length exceeds the
capacity. -/
def strBuffSetTrim? (N : Nat) (b : StrBuff) (value : List Char) (trim : Char) :
    Option StrBuff :=
  (copyInto b.buff (utf8Encode value)
      (setTrimTotal N trim value.reverse (utf8Encode value).length)).map
    (fun buf =>
      { len := setTrimTotal N trim value.reverse (utf8Encode value).length,
        buff := buf })

/-- `impl From<$type> for String`: `from_utf8(&buff[0..len]).unwrap()`;
`none` models the fatal failure on invalid bytes. -/
def strBuffToString? (b : StrBuff) : Option (List Char) :=
  utf8Decode (b.buff.take b.len)

/-- `to_opt`: `None` when the stored length is zero, otherwise
`Some(String::from(self))`.  The outer `Option` models the fatal failure
that `String::from` can raise on invalid stored bytes. -/
def toOpt? (b : StrBuff) : Option (Option (List Char)) :=
  if b.len = 0 then some none
  else (strBuffToString? b).map (fun s => some s)

/-- `Score`: centipawns or mate distance, both `i32` in the source. -/
inductive Score where
  | Cp (v : Int)
  | Mate (v : Int)
deriving DecidableEq, Repr

/-- `AnalysisInfo`: one decoded line's worth of statistics.  `usize` fields
are `Nat` (written only through the bounds-checked parser below), `u64`
fields likewise. -/
structure AnalysisInfo where
  bestmove : StrBuff
  ponder : StrBuff
  pv : StrBuff
  multipv : Nat
  depth : Nat
  seldepth : Nat
  tbhits : Nat
  nodes : Nat
  time : Nat
  nps : Nat
  score : Score
deriving DecidableEq, Repr

/-- `AnalysisInfo::new()`. -/
def AnalysisInfo.new : AnalysisInfo :=
  { bestmove := StrBuff.new UCI_MAX_LENGTH
    ponder := StrBuff.new UCI_MAX_LENGTH
    pv := StrBuff.new PV_BUFF_SIZE
    multipv := 0
    depth := 0
    seldepth := 0
    tbhits := 0
    nodes := 0
    time := 0
    nps := 0
    score := Score.Cp 0 }

/-- Accessor `bestmove()` (`to_opt` on the field). -/
def AnalysisInfo.bestmoveOpt (a : AnalysisInfo) : Option (Option (List Char)) :=
  toOpt? a.bestmove

/-- Accessor `ponder()`. -/
def AnalysisInfo.ponderOpt (a : AnalysisInfo) : Option (Option (List Char)) :=
  toOpt? a.ponder

/-- Accessor `pv()`. -/
def AnalysisInfo.pvOpt (a : AnalysisInfo) : Option (Option (List Char)) :=
  toOpt? a.pv

/-- `ParsingState` from the source. -/
inductive ParsingState where
  | Info
  | Key
  | Unknown
  | Multipv
  | Depth
  | Seldepth
  | Tbhits
  | Nodes
  | Time
  | Nps
  | Score
  | ScoreCp
  | ScoreMate
  | PvBestmove
  | PvPonder
  | PvRest
deriving DecidableEq, Repr

/-- Value of a nonempty all-digit run, most significant digit first;
`none` when empty or when a non-digit occurs (Rust's integer `from_str`
digit loop). -/
def parseDigits (cs : List Char) : Option Nat :=
  if cs = [] then none
  else
    cs.foldl
      (fun acc c =>
        acc.bind (fun n =>
          if c.isDigit then some (n * 10 + (c.toNat - 48)) else none))
      (some 0)

/-- `str::parse::<u64>()`: optional leading `+`, then digits, with the
64-bit overflow check. -/
def parseU64 (cs : List Char) : Option Nat :=
  (parseDigits (match cs with | '+' :: rest => rest | _ => cs)).bind
    (fun n => if n < 18446744073709551616 then some n else none)

/-- `str::parse::<usize>()`: on the 64-bit target this is the same range
as `u64`. -/
def parseUsize (cs : List Char) : Option Nat :=
  parseU64 cs

/-- `str::parse::<i32>()`: optional sign, digits, 32-bit range check
(minimum -2^31, maximum 2^31 - 1). -/
def parseI32 (cs : List Char) : Option Int :=
  match cs with
  | '-' :: rest =>
    (parseDigits rest).bind
      (fun n => if n ≤ 2147483648 then some (-(n : Int)) else none)
  | '+' :: rest =>
    (parseDigits rest).bind
      (fun n => if n < 2147483648 then some ((n : Int)) else none)
  | _ =>
    (parseDigits cs).bind
      (fun n => if n < 2147483648 then some ((n : Int)) else none)

/-- The token `"info"` as a character list. -/
def kInfo : List Char := "info".data

/-- The token `"string"`. -/
def kString : List Char := "string".data

/-- The token `"multipv"`. -/
def kMultipv : List Char := "multipv".data

/-- The token `"depth"`. -/
def kDepth : List Char := "depth".data

/-- The token `"seldepth"`. -/
def kSeldepth : List Char := "seldepth".data

/-- The token `"tbhits"`. -/
def kTbhits : List Char := "tbhits".data

/-- The token `"nodes"`. -/
def kNodes : List Char := "nodes".data

/-- The token `"time"`. -/
def kTime : List Char := "time".data

/-- The token `"nps"`. -/
def kNps : List Char := "nps".data

/-- The token `"score"`. -/
def kScore : List Char := "score".data

/-- The token `"cp"`. -/
def kCp : List Char := "cp".data

/-- The token `"mate"`. -/
def kMate : List Char := "mate".data

/-- The token `"pv"`. -/
def kPv : List Char := "pv".data

/-- `info.split(" ")`: split on the single space character, preserving
empty tokens (so the result is never the empty list). -/
def splitOnSpace : List Char → List (List Char)
  | [] => [[]]
  | c :: rest =>
    match splitOnSpace rest with
    | [] => [[c]]
    | t :: ts => if c = ' ' then [] :: t :: ts else (c :: t) :: ts

/-- The mutable state of the `parse` loop: the parsing state, the running
principal-variation text, the `pv_on` flag, and the record being mutated
(`self` in the source). -/
structure LoopSt where
  ps : ParsingState
  pvBuff : List Char
  pvOn : Bool
  slf : AnalysisInfo
deriving DecidableEq, Repr

/-- The key-dispatch performed in the `Key` state (after the `"string"`
check): exact match against the recognized keys, anything else `Unknown`. -/
def keyOf (token : List Char) : ParsingState :=
  if token = kMultipv then ParsingState.Multipv
  else if token = kDepth then ParsingState.Depth
  else if token = kSeldepth then ParsingState.Seldepth
  else if token = kTbhits then ParsingState.Tbhits
  else if token = kNodes then ParsingState.Nodes
  else if token = kTime then ParsingState.Time
  else if token = kNps then ParsingState.Nps
  else if token = kScore then ParsingState.Score
  else if token = kPv then ParsingState.PvBestmove
  else ParsingState.Unknown

/-- The inner `match ps` of the catch-all arm of the token loop: one value
token is consumed in the given state.  A numeric field is overwritten only
when the token parses (on failure the source only logs a warning, so the
field keeps its prior value); the `pv` states append to the running pv
text and store the move into a bounded buffer (`From<&str>`, which can in
principle fail on the slice copy, hence `Option`). -/
def handleValue? (ps : ParsingState) (st : LoopSt) (token : List Char) :
    Option LoopSt :=
  match ps with
  | ParsingState.Multipv =>
    some { st with slf := { st.slf with
      multipv := match parseUsize token with
        | some v => v
        | none => st.slf.multipv } }
  | ParsingState.Depth =>
    some { st with slf := { st.slf with
      depth := match parseUsize token with
        | some v => v
        | none => st.slf.depth } }
  | ParsingState.Seldepth =>
    some { st with slf := { st.slf with
      seldepth := match parseUsize token with
        | some v => v
        | none => st.slf.seldepth } }
  | ParsingState.Tbhits =>
    some { st with slf := { st.slf with
      tbhits := match parseU64 token with
        | some v => v
        | none => st.slf.tbhits } }
  | ParsingState.Nodes =>
    some { st with slf := { st.slf with
      nodes := match parseU64 token with
        | some v => v
        | none => st.slf.nodes } }
  | ParsingState.Nps =>
    some { st with slf := { st.slf with
      nps := match parseU64 token with
        | some v => v
        | none => st.slf.nps } }
  | ParsingState.Time =>
    some { st with slf := { st.slf with
      time := match parseUsize token with
        | some v => v
        | none => st.slf.time } }
  | ParsingState.ScoreCp =>
    some { st with slf := { st.slf with
      score := match parseI32 token with
        | some v => Score.Cp v
        | none => st.slf.score } }
  | ParsingState.ScoreMate =>
    some { st with slf := { st.slf with
      score := match parseI32 token with
        | some v => Score.Mate v
        | none => st.slf.score } }
  | ParsingState.PvBestmove =>
    (strBuffFrom? UCI_MAX_LENGTH token).map (fun b =>
      { st with
        pvBuff := st.pvBuff ++ token
        slf := { st.slf with bestmove := b }
        pvOn := true
        ps := ParsingState.PvPonder })
  | ParsingState.PvPonder =>
    (strBuffFrom? UCI_MAX_LENGTH token).map (fun b =>
      { st with
        pvBuff := (st.pvBuff ++ [' ']) ++ token
        slf := { st.slf with ponder := b }
        ps := ParsingState.PvRest })
  | ParsingState.PvRest =>
    some { st with pvBuff := (st.pvBuff ++ [' ']) ++ token }
  | _ => some st

/-- The token loop of `AnalysisInfo::parse`.  Early `return` paths yield
the record as mutated so far (skipping the final `pv` store); when the
token list is exhausted the accumulated pv text is stored into the `pv`
field (`self.pv = PvBuff::from(pv_buff)`).  After a value token, the state
falls back to `Key` unless `pv_on` is set. -/
def parseTokens? : List (List Char) → LoopSt → Option AnalysisInfo
  | [], st =>
    (strBuffFrom? PV_BUFF_SIZE st.pvBuff).map (fun b => { st.slf with pv := b })
  | token :: rest, st =>
    match st.ps with
    | ParsingState.Info =>
      if token = kInfo then parseTokens? rest { st with ps := ParsingState.Key }
      else some st.slf
    | ParsingState.Key =>
      if token = kString then some st.slf
      else parseTokens? rest { st with ps := keyOf token }
    | ParsingState.Score =>
      if token = kCp then parseTokens? rest { st with ps := ParsingState.ScoreCp }
      else if token = kMate then
        parseTokens? rest { st with ps := ParsingState.ScoreMate }
      else some st.slf
    | ParsingState.Unknown => parseTokens? rest { st with ps := ParsingState.Key }
    | other =>
      (handleValue? other st token).bind (fun st2 =>
        parseTokens? rest
          (if st2.pvOn then st2 else { st2 with ps := ParsingState.Key }))

/-- `AnalysisInfo::parse`, with the fatal-failure possibilities of its
internal buffer copies surfaced as `Option` (`none` can in fact never
happen: see the totality theorem). -/
def AnalysisInfo.parse? (a : AnalysisInfo) (info : List Char) :
    Option AnalysisInfo :=
  parseTokens? (splitOnSpace info)
    { ps := ParsingState.Info, pvBuff := [], pvOn := false, slf := a }

/-- `AnalysisInfo::parse` as the total function it is in practice. -/
def AnalysisInfo.parse (a : AnalysisInfo) (info : List Char) : AnalysisInfo :=
  (a.parse? info).getD a

/-- Concrete line from the spec's example set. -/
def lineExample : List Char :=
  "info depth 12 seldepth 18 multipv 1 score cp 34 nodes 100000 nps 50000 time 2000 pv e2e4 e7e5".data

/-- Concrete line with a malformed depth value. -/
def lineBadDepth : List Char := "info depth notanumber nodes 500".data

/-- Concrete line with a bad score specifier after a successful depth. -/
def lineBadScore : List Char := "info depth 7 score bad nodes 9".data

/-- Concrete line seeding a nonempty pv into a record. -/
def linePvSeed : List Char := "info pv e2e4 e7e5".data

/-- Concrete info line containing no `pv` key. -/
def lineDepthOnly : List Char := "info depth 1".data

/-- Concrete non-info line. -/
def lineBestmove : List Char := "bestmove e2e4".data

/-- A record with nonempty buffers and nonzero numeric fields, produced by
the decoder itself. -/
def aSample : AnalysisInfo :=
  AnalysisInfo.parse (AnalysisInfo.parse AnalysisInfo.new linePvSeed) lineExample

/-- A string of six ASCII bytes whose truncation to five bytes cuts the
two-byte encoding of `é` in half. -/
def sSplitCut : List Char := "aaaaé".data

/-- The buffer obtained by `set`-ting `sSplitCut` into a fresh `UciBuff`. -/
def bSplitSet : StrBuff :=
  (strBuffSet? UCI_MAX_LENGTH (StrBuff.new UCI_MAX_LENGTH) sSplitCut).getD
    (StrBuff.new UCI_MAX_LENGTH)

/-- The buffer obtained by `From<&str>` from `sSplitCut`. -/
def bSplitFrom : StrBuff :=
  (strBuffFrom? UCI_MAX_LENGTH sSplitCut).getD (StrBuff.new UCI_MAX_LENGTH)

/-- Six copies of the two-byte character `é`, with no space anywhere. -/
def sSixAccents : List Char := "éééééé".data

/-- The four-byte move token `e2e4`. -/
def sE2e4 : List Char := "e2e4".data

/-- The buffer obtained by `From<&str>` from `sE2e4` (fits in `UciBuff`). -/
def bE2e4 : StrBuff :=
  (strBuffFrom? UCI_MAX_LENGTH sE2e4).getD (StrBuff.new UCI_MAX_LENGTH)

/-- A loop state sitting in the `Depth` value state. -/
def stDepth0 : LoopSt :=
  { ps := ParsingState.Depth, pvBuff := [], pvOn := false, slf := AnalysisInfo.new }

/-- A loop state sitting in the `Score` state. -/
def stScore0 : LoopSt :=
  { ps := ParsingState.Score, pvBuff := [], pvOn := false, slf := AnalysisInfo.new }

/-- A token that parses as no numeric type. -/
def tokX : List Char := "x".data

/-- The four-byte move token `e7e5`. -/
def sE7e5 : List Char := "e7e5".data

/-- The pv text accumulated from the spec's example line. -/
def sPvText : List Char := "e2e4 e7e5".data

theorem utf8DecodeOne_encodeChar (c : Char) (bs : List Nat) :
    utf8DecodeOne (utf8EncodeChar c ++ bs) = some (c, bs) := by
  have hv : Nat.isValidChar c.toNat := c.valid
  unfold Nat.isValidChar at hv
  by_cases h1 : c.toNat < 128
  · have henc : utf8EncodeChar c = [c.toNat] := by
      simp only [utf8EncodeChar]
      rw [if_pos h1]
    rw [henc]
    rw [List.cons_append]
    rw [List.nil_append]
    rw [utf8DecodeOne.eq_def]
    dsimp only
    rw [if_pos h1]
    rw [Char.ofNat_toNat]
  · by_cases h2 : c.toNat < 2048
    · have henc : utf8EncodeChar c = [192 + c.toNat / 64, 128 + c.toNat % 64] := by
        simp only [utf8EncodeChar]
        rw [if_neg h1]
        rw [if_pos h2]
      have hb0a : ¬ (192 + c.toNat / 64 < 128) := by omega
      have hb0b : ¬ (192 + c.toNat / 64 < 194) := by omega
      have hb0c : 192 + c.toNat / 64 < 224 := by omega
      have hb1 : 128 ≤ 128 + c.toNat % 64 ∧ 128 + c.toNat % 64 < 192 := ⟨by omega, by omega⟩
      have hval : (192 + c.toNat / 64 - 192) * 64 + (128 + c.toNat % 64 - 128) = c.toNat := by
        omega
      rw [henc]
      rw [List.cons_append]
      rw [List.cons_append]
      rw [List.nil_append]
      rw [utf8DecodeOne.eq_def]
      dsimp only
      rw [if_neg hb0a]
      rw [if_neg hb0b]
      rw [if_pos hb0c]
      rw [if_pos hb1]
      rw [hval]
      rw [Char.ofNat_toNat]
    · by_cases h3 : c.toNat < 65536
      · have henc : utf8EncodeChar c =
            [224 + c.toNat / 4096, 128 + c.toNat / 64 % 64, 128 + c.toNat % 64] := by
          simp only [utf8EncodeChar]
          rw [if_neg h1]
          rw [if_neg h2]
          rw [if_pos h3]
        have hb0a : ¬ (224 + c.toNat / 4096 < 128) := by omega
        have hb0b : ¬ (224 + c.toNat / 4096 < 194) := by omega
        have hb0c : ¬ (224 + c.toNat / 4096 < 224) := by omega
        have hb0d : 224 + c.toNat / 4096 < 240 := by omega
        have hb12 : (128 ≤ 128 + c.toNat / 64 % 64 ∧ 128 + c.toNat / 64 % 64 < 192) ∧
            (128 ≤ 128 + c.toNat % 64 ∧ 128 + c.toNat % 64 < 192) :=
          ⟨⟨by omega, by omega⟩, ⟨by omega, by omega⟩⟩
        have hval : (224 + c.toNat / 4096 - 224) * 4096 +
            (128 + c.toNat / 64 % 64 - 128) * 64 + (128 + c.toNat % 64 - 128) = c.toNat := by
          omega
        have hcond : 2048 ≤ c.toNat ∧ (c.toNat < 55296 ∨ 57343 < c.toNat) := by
          refine ⟨by omega, ?_⟩
          rcases hv with hl | hr
          · exact Or.inl hl
          · exact Or.inr hr.1
        rw [henc]
        rw [List.cons_append]
        rw [List.cons_append]
        rw [List.cons_append]
        rw [List.nil_append]
        rw [utf8DecodeOne.eq_def]
        dsimp only
        rw [if_neg hb0a]
        rw [if_neg hb0b]
        rw [if_neg hb0c]
        rw [if_pos hb0d]
        rw [if_pos hb12]
        rw [hval]
        rw [if_pos hcond]
        rw [Char.ofNat_toNat]
      · have hup : c.toNat < 1114112 := by
          rcases hv with hl | hr
          · omega
          · exact hr.2
        have henc : utf8EncodeChar c =
            [240 + c.toNat / 262144, 128 + c.toNat / 4096 % 64,
             128 + c.toNat / 64 % 64, 128 + c.toNat % 64] := by
          simp only [utf8EncodeChar]
          rw [if_neg h1]
          rw [if_neg h2]
          rw [if_neg h3]
        have hb0a : ¬ (240 + c.toNat / 262144 < 128) := by omega
        have hb0b : ¬ (240 + c.toNat / 262144 < 194) := by omega
        have hb0c : ¬ (240 + c.toNat / 262144 < 224) := by omega
        have hb0d : ¬ (240 + c.toNat / 262144 < 240) := by omega
        have hb0e : 240 + c.toNat / 262144 < 245 := by omega
        have hb123 : (128 ≤ 128 + c.toNat / 4096 % 64 ∧ 128 + c.toNat / 4096 % 64 < 192) ∧
            (128 ≤ 128 + c.toNat / 64 % 64 ∧ 128 + c.toNat / 64 % 64 < 192) ∧
            (128 ≤ 128 + c.toNat % 64 ∧ 128 + c.toNat % 64 < 192) :=
          ⟨⟨by omega, by omega⟩, ⟨by omega, by omega⟩, ⟨by omega, by omega⟩⟩
        have hval : (240 + c.toNat / 262144 - 240) * 262144 +
            (128 + c.toNat / 4096 % 64 - 128) * 4096 +
            (128 + c.toNat / 64 % 64 - 128) * 64 + (128 + c.toNat % 64 - 128) = c.toNat := by
          omega
        have hcond : 65536 ≤ c.toNat ∧ c.toNat < 1114112 := ⟨by omega, hup⟩
        rw [henc]
        rw [List.cons_append]
        rw [List.cons_append]
        rw [List.cons_append]
        rw [List.cons_append]
        rw [List.nil_append]
        rw [utf8DecodeOne.eq_def]
        dsimp only
        rw [if_neg hb0a]
        rw [if_neg hb0b]
        rw [if_neg hb0c]
        rw [if_neg hb0d]
        rw [if_pos hb0e]
        rw [if_pos hb123]
        rw [hval]
        rw [if_pos hcond]
        rw [Char.ofNat_toNat]

theorem utf8EncodeChar_ne_nil (c : Char) : utf8EncodeChar c ≠ [] := by
  unfold utf8EncodeChar
  split_ifs <;> simp

theorem length_le_utf8Encode (s : List Char) : s.length ≤ (utf8Encode s).length := by
  induction s with
  | nil => simp [utf8Encode]
  | cons c cs ih =>
    rw [utf8Encode]
    rw [List.length_append]
    rw [List.length_cons]
    have h1 : 1 ≤ (utf8EncodeChar c).length := by
      have := utf8EncodeChar_ne_nil c
      cases hE : utf8EncodeChar c with
      | nil => exact absurd hE this
      | cons x xs => simp
    omega

theorem utf8DecodeAux_encode (s : List Char) :
    ∀ fuel, s.length ≤ fuel → utf8DecodeAux fuel (utf8Encode s) = some s := by
  induction s with
  | nil =>
    intro fuel _
    rw [utf8Encode]
    cases fuel <;> rfl
  | cons c cs ih =>
    intro fuel hf
    cases fuel with
    | zero => simp at hf
    | succ f =>
      rw [utf8Encode]
      have hne : utf8EncodeChar c ++ utf8Encode cs ≠ [] := by
        intro hcontra
        exact utf8EncodeChar_ne_nil c (List.append_eq_nil.mp hcontra).1
      rcases List.exists_cons_of_ne_nil hne with ⟨b0, tl, heq⟩
      rw [heq]
      rw [utf8DecodeAux]
      rw [← heq]
      rw [utf8DecodeOne_encodeChar]
      dsimp only
      rw [ih f (by simpa using hf)]
      rfl

theorem utf8Decode_encode (s : List Char) : utf8Decode (utf8Encode s) = some s := by
  unfold utf8Decode
  exact utf8DecodeAux_encode s _ (length_le_utf8Encode s)

theorem fromLen_le (N : Nat) (s : List Char) : fromLen N s ≤ N := by
  unfold fromLen
  split <;> omega

theorem fromLen_le_length (N : Nat) (s : List Char) :
    fromLen N s ≤ (utf8Encode s).length := by
  unfold fromLen
  split <;> omega

theorem strBuffFrom?_eq (N : Nat) (s : List Char) :
    strBuffFrom? N s = some ⟨fromLen N s,
      (utf8Encode s).take (fromLen N s) ++ (List.replicate N 0).drop (fromLen N s)⟩ := by
  unfold strBuffFrom? copyInto StrBuff.new
  simp only [List.length_replicate]
  rw [if_pos ⟨fromLen_le N s, fromLen_le_length N s⟩]
  rfl

theorem strBuffSet?_eq (N : Nat) (b : StrBuff) (s : List Char)
    (hb : b.buff.length = N) :
    strBuffSet? N b s = some ⟨fromLen N s,
      (utf8Encode s).take (fromLen N s) ++ b.buff.drop (fromLen N s)⟩ := by
  unfold strBuffSet? copyInto
  rw [hb]
  rw [if_pos ⟨fromLen_le N s, fromLen_le_length N s⟩]
  rfl

theorem take_fromLen_buff (N : Nat) (s : List Char) (tail : List Nat) :
    ((utf8Encode s).take (fromLen N s) ++ tail).take (fromLen N s) =
      (utf8Encode s).take (fromLen N s) := by
  apply List.take_left'
  rw [List.length_take]
  have := fromLen_le_length N s
  omega

theorem splitOnSpace_ne_nil (l : List Char) : splitOnSpace l ≠ [] := by
  cases l with
  | nil => simp [splitOnSpace]
  | cons c rest =>
    rw [splitOnSpace]
    cases splitOnSpace rest with
    | nil => simp
    | cons t ts =>
      by_cases h : c = ' ' <;> simp [h]

theorem optionBindIsSome {α β : Type} (x : Option α) (f : α → Option β)
    (hx : x.isSome) (hf : ∀ a, (f a).isSome) : (x.bind f).isSome := by
  cases x with
  | none => simp at hx
  | some a => exact hf a

theorem handleValue?_isSome (ps : ParsingState) (st : LoopSt) (t : List Char) :
    (handleValue? ps st t).isSome := by
  cases ps <;> simp [handleValue?, strBuffFrom?_eq]

theorem parseTokens?_isSome (ts : List (List Char)) :
    ∀ st : LoopSt, (parseTokens? ts st).isSome := by
  induction ts with
  | nil =>
    intro st
    rw [parseTokens?]
    rw [strBuffFrom?_eq]
    rfl
  | cons t rest ih =>
    intro st
    rw [parseTokens?]
    cases hps : st.ps
    case Info =>
      dsimp only
      split
      · exact ih _
      · rfl
    case Key =>
      dsimp only
      split
      · rfl
      · exact ih _
    case Score =>
      dsimp only
      split
      · exact ih _
      · split
        · exact ih _
        · rfl
    case Unknown => exact ih _
    all_goals
      dsimp only
      exact optionBindIsSome _ _ (handleValue?_isSome _ st t) (fun st2 => ih _)

theorem parse?_eq_parse (a : AnalysisInfo) (line : List Char) :
    a.parse? line = some (a.parse line) := by
  have h := parseTokens?_isSome (splitOnSpace line)
    { ps := ParsingState.Info, pvBuff := [], pvOn := false, slf := a }
  obtain ⟨r, hr⟩ := Option.isSome_iff_exists.mp h
  simp only [AnalysisInfo.parse, AnalysisInfo.parse?]
  rw [hr]
  rfl

theorem hv_facts (ps : ParsingState) (st : LoopSt) (t : List Char) (st2 : LoopSt)
    (h : handleValue? ps st t = some st2) :
    (ps = ParsingState.PvBestmove → st2.ps = ParsingState.PvPonder) ∧
    (ps = ParsingState.PvPonder → st2.ps = ParsingState.PvRest) ∧
    (ps ≠ ParsingState.PvBestmove → ps ≠ ParsingState.PvPonder → st2.ps = st.ps) ∧
    (ps ≠ ParsingState.PvBestmove → st2.pvOn = st.pvOn) ∧
    (ps ≠ ParsingState.PvBestmove → ps ≠ ParsingState.PvPonder →
      ps ≠ ParsingState.PvRest → st2.pvBuff = st.pvBuff) ∧
    st2.slf.pv = st.slf.pv ∧
    (ps ≠ ParsingState.Multipv → st2.slf.multipv = st.slf.multipv) ∧
    (ps ≠ ParsingState.Depth → st2.slf.depth = st.slf.depth) ∧
    (ps ≠ ParsingState.Seldepth → st2.slf.seldepth = st.slf.seldepth) ∧
    (ps ≠ ParsingState.Tbhits → st2.slf.tbhits = st.slf.tbhits) ∧
    (ps ≠ ParsingState.Nodes → st2.slf.nodes = st.slf.nodes) ∧
    (ps ≠ ParsingState.Time → st2.slf.time = st.slf.time) ∧
    (ps ≠ ParsingState.Nps → st2.slf.nps = st.slf.nps) ∧
    (ps ≠ ParsingState.ScoreCp → ps ≠ ParsingState.ScoreMate →
      st2.slf.score = st.slf.score) ∧
    (ps ≠ ParsingState.PvBestmove → st2.slf.bestmove = st.slf.bestmove) ∧
    (ps ≠ ParsingState.PvPonder → st2.slf.ponder = st.slf.ponder) := by
  cases ps <;>
    (simp only [handleValue?, strBuffFrom?_eq, Option.map_some', Option.some.injEq] at h
     subst h
     simp)

theorem frameGen {α : Type} (g : AnalysisInfo → α) (T : ParsingState → Prop) (k : List Char)
    (hPv : ∀ (a : AnalysisInfo) (b : StrBuff), g { a with pv := b } = g a)
    (hA : ∀ st t st2, handleValue? st.ps st t = some st2 → ¬ T st.ps → g st2.slf = g st.slf)
    (hB : ∀ st t st2, handleValue? st.ps st t = some st2 → ¬ T st.ps → ¬ T st2.ps)
    (hKey : ¬ T ParsingState.Key)
    (hk : ∀ t, t ≠ k → ¬ T (keyOf t))
    (hSc : ¬ T ParsingState.Score → ¬ T ParsingState.ScoreCp ∧ ¬ T ParsingState.ScoreMate) :
    ∀ (ts : List (List Char)) (st : LoopSt) (r : AnalysisInfo),
      parseTokens? ts st = some r → k ∉ ts → ¬ T st.ps → g r = g st.slf := by
  intro ts
  induction ts with
  | nil =>
    intro st r h hm hT
    rw [parseTokens?] at h
    rw [strBuffFrom?_eq] at h
    rw [Option.map_some'] at h
    injection h with h2
    rw [← h2]
    exact hPv st.slf _
  | cons t rest ih =>
    intro st r h hm hT
    have hmt : t ≠ k := by
      intro hcontra
      exact hm (by rw [hcontra]; exact List.mem_cons_self _ _)
    have hmr : k ∉ rest := fun hc => hm (List.mem_cons_of_mem _ hc)
    rw [parseTokens?] at h
    cases hps : st.ps
    case Info =>
      rw [hps] at h
      dsimp only at h
      split at h
      · exact ih { st with ps := ParsingState.Key } r h hmr hKey
      · injection h with h2
        rw [← h2]
    case Key =>
      rw [hps] at h
      dsimp only at h
      split at h
      · injection h with h2
        rw [← h2]
      · exact ih { st with ps := keyOf t } r h hmr (hk t hmt)
    case Score =>
      rw [hps] at h hT
      dsimp only at h
      split at h
      · exact ih { st with ps := ParsingState.ScoreCp } r h hmr (hSc hT).1
      · split at h
        · exact ih { st with ps := ParsingState.ScoreMate } r h hmr (hSc hT).2
        · injection h with h2
          rw [← h2]
    case Unknown =>
      rw [hps] at h
      dsimp only at h
      exact ih { st with ps := ParsingState.Key } r h hmr hKey
    all_goals
      rw [hps] at h
      dsimp only at h
      obtain ⟨st2, hhv, h2⟩ := Option.bind_eq_some.mp h
      have hA2 := hA st t st2 (by rw [hps]; exact hhv) hT
      have hB2 := hB st t st2 (by rw [hps]; exact hhv) hT
      by_cases hpo : st2.pvOn = true
      · rw [if_pos hpo] at h2
        exact (ih st2 r h2 hmr hB2).trans hA2
      · rw [if_neg hpo] at h2
        exact (ih { st2 with ps := ParsingState.Key } r h2 hmr
          (show ¬ T ParsingState.Key from hKey)).trans hA2

theorem keyOf_pv_iff (t : List Char) (ht : t ≠ kPv) :
    keyOf t ≠ ParsingState.PvBestmove ∧ keyOf t ≠ ParsingState.PvPonder ∧
    keyOf t ≠ ParsingState.PvRest := by
  unfold keyOf
  split_ifs <;> simp_all

theorem parseTokens?_pv (ts : List (List Char)) :
    ∀ (st : LoopSt) (r : AnalysisInfo), parseTokens? ts st = some r → kPv ∉ ts →
      st.ps ≠ ParsingState.PvBestmove → st.ps ≠ ParsingState.PvPonder →
      st.ps ≠ ParsingState.PvRest →
      r.pv = st.slf.pv ∨ strBuffFrom? PV_BUFF_SIZE st.pvBuff = some r.pv := by
  induction ts with
  | nil =>
    intro st r h _ _ _ _
    rw [parseTokens?] at h
    rw [strBuffFrom?_eq] at h
    rw [Option.map_some'] at h
    injection h with h2
    refine Or.inr ?_
    rw [← h2]
    exact strBuffFrom?_eq PV_BUFF_SIZE st.pvBuff
  | cons t rest ih =>
    intro st r h hm hp1 hp2 hp3
    have hmt : t ≠ kPv := by
      intro hcontra
      exact hm (by rw [hcontra]; exact List.mem_cons_self _ _)
    have hmr : kPv ∉ rest := fun hc => hm (List.mem_cons_of_mem _ hc)
    rw [parseTokens?] at h
    cases hps : st.ps
    case Info =>
      rw [hps] at h
      dsimp only at h
      split at h
      · exact ih { st with ps := ParsingState.Key } r h hmr
          (by simp) (by simp) (by simp)
      · injection h with h2
        rw [← h2]
        exact Or.inl rfl
    case Key =>
      rw [hps] at h
      dsimp only at h
      split at h
      · injection h with h2
        rw [← h2]
        exact Or.inl rfl
      · have hko := keyOf_pv_iff t hmt
        exact ih { st with ps := keyOf t } r h hmr hko.1 hko.2.1 hko.2.2
    case Score =>
      rw [hps] at h
      dsimp only at h
      split at h
      · exact ih { st with ps := ParsingState.ScoreCp } r h hmr
          (by simp) (by simp) (by simp)
      · split at h
        · exact ih { st with ps := ParsingState.ScoreMate } r h hmr
            (by simp) (by simp) (by simp)
        · injection h with h2
          rw [← h2]
          exact Or.inl rfl
    case Unknown =>
      rw [hps] at h
      dsimp only at h
      exact ih { st with ps := ParsingState.Key } r h hmr (by simp) (by simp) (by simp)
    case PvBestmove => exact absurd hps hp1
    case PvPonder => exact absurd hps hp2
    case PvRest => exact absurd hps hp3
    all_goals
      rw [hps] at h
      dsimp only at h
      obtain ⟨st2, hhv, h2⟩ := Option.bind_eq_some.mp h
      have hf := hv_facts st.ps st t st2 (by rw [hps]; exact hhv)
      have hps2 : st2.ps = st.ps := hf.2.2.1 (by rw [hps]; simp) (by rw [hps]; simp)
      have hbuf : st2.pvBuff = st.pvBuff :=
        hf.2.2.2.2.1 (by rw [hps]; simp) (by rw [hps]; simp) (by rw [hps]; simp)
      have hpv : st2.slf.pv = st.slf.pv := hf.2.2.2.2.2.1
      by_cases hpo : st2.pvOn = true
      · rw [if_pos hpo] at h2
        have hr := ih st2 r h2 hmr
          (by rw [hps2, hps]; simp) (by rw [hps2, hps]; simp) (by rw [hps2, hps]; simp)
        rw [hpv, hbuf] at hr
        exact hr
      · rw [if_neg hpo] at h2
        have hr := ih { st2 with ps := ParsingState.Key } r h2 hmr
          (by simp) (by simp) (by simp)
        rw [show ({ st2 with ps := ParsingState.Key } : LoopSt).slf = st2.slf from rfl] at hr
        rw [show ({ st2 with ps := ParsingState.Key } : LoopSt).pvBuff = st2.pvBuff from rfl]
          at hr
        rw [hpv, hbuf] at hr
        exact hr

theorem parse_keeps_multipv (line : List Char) (a : AnalysisInfo)
    (hm : kMultipv ∉ splitOnSpace line) :
    (AnalysisInfo.parse a line).multipv = a.multipv := by
  have h2 : parseTokens? (splitOnSpace line)
      { ps := ParsingState.Info, pvBuff := [], pvOn := false, slf := a } =
      some (a.parse line) := parse?_eq_parse a line
  refine frameGen (fun x => x.multipv) (fun ps => ps = ParsingState.Multipv) kMultipv
    (fun x b => rfl) ?_ ?_ (by simp) ?_ (fun hs => ⟨by simp, by simp⟩)
    (splitOnSpace line) _ _ h2 hm (by simp)
  · intro st t st2 hhv hT
    exact (hv_facts st.ps st t st2 hhv).2.2.2.2.2.2.1 hT
  · intro st t st2 hhv hT
    have hf := hv_facts st.ps st t st2 hhv
    by_cases hx1 : st.ps = ParsingState.PvBestmove
    · rw [hf.1 hx1]
      simp
    · by_cases hx2 : st.ps = ParsingState.PvPonder
      · rw [hf.2.1 hx2]
        simp
      · rw [hf.2.2.1 hx1 hx2]
        exact hT
  · intro t ht
    unfold keyOf
    split_ifs <;> simp_all

theorem parse_keeps_depth (line : List Char) (a : AnalysisInfo)
    (hm : kDepth ∉ splitOnSpace line) :
    (AnalysisInfo.parse a line).depth = a.depth := by
  have h2 : parseTokens? (splitOnSpace line)
      { ps := ParsingState.Info, pvBuff := [], pvOn := false, slf := a } =
      some (a.parse line) := parse?_eq_parse a line
  refine frameGen (fun x => x.depth) (fun ps => ps = ParsingState.Depth) kDepth
    (fun x b => rfl) ?_ ?_ (by simp) ?_ (fun hs => ⟨by simp, by simp⟩)
    (splitOnSpace line) _ _ h2 hm (by simp)
  · intro st t st2 hhv hT
    exact (hv_facts st.ps st t st2 hhv).2.2.2.2.2.2.2.1 hT
  · intro st t st2 hhv hT
    have hf := hv_facts st.ps st t st2 hhv
    by_cases hx1 : st.ps = ParsingState.PvBestmove
    · rw [hf.1 hx1]
      simp
    · by_cases hx2 : st.ps = ParsingState.PvPonder
      · rw [hf.2.1 hx2]
        simp
      · rw [hf.2.2.1 hx1 hx2]
        exact hT
  · intro t ht
    unfold keyOf
    split_ifs <;> simp_all

theorem parse_keeps_seldepth (line : List Char) (a : AnalysisInfo)
    (hm : kSeldepth ∉ splitOnSpace line) :
    (AnalysisInfo.parse a line).seldepth = a.seldepth := by
  have h2 : parseTokens? (splitOnSpace line)
      { ps := ParsingState.Info, pvBuff := [], pvOn := false, slf := a } =
      some (a.parse line) := parse?_eq_parse a line
  refine frameGen (fun x => x.seldepth) (fun ps => ps = ParsingState.Seldepth) kSeldepth
    (fun x b => rfl) ?_ ?_ (by simp) ?_ (fun hs => ⟨by simp, by simp⟩)
    (splitOnSpace line) _ _ h2 hm (by simp)
  · intro st t st2 hhv hT
    exact (hv_facts st.ps st t st2 hhv).2.2.2.2.2.2.2.2.1 hT
  · intro st t st2 hhv hT
    have hf := hv_facts st.ps st t st2 hhv
    by_cases hx1 : st.ps = ParsingState.PvBestmove
    · rw [hf.1 hx1]
      simp
    · by_cases hx2 : st.ps = ParsingState.PvPonder
      · rw [hf.2.1 hx2]
        simp
      · rw [hf.2.2.1 hx1 hx2]
        exact hT
  · intro t ht
    unfold keyOf
    split_ifs <;> simp_all

theorem parse_keeps_tbhits (line : List Char) (a : AnalysisInfo)
    (hm : kTbhits ∉ splitOnSpace line) :
    (AnalysisInfo.parse a line).tbhits = a.tbhits := by
  have h2 : parseTokens? (splitOnSpace line)
      { ps := ParsingState.Info, pvBuff := [], pvOn := false, slf := a } =
      some (a.parse line) := parse?_eq_parse a line
  refine frameGen (fun x => x.tbhits) (fun ps => ps = ParsingState.Tbhits) kTbhits
    (fun x b => rfl) ?_ ?_ (by simp) ?_ (fun hs => ⟨by simp, by simp⟩)
    (splitOnSpace line) _ _ h2 hm (by simp)
  · intro st t st2 hhv hT
    exact (hv_facts st.ps st t st2 hhv).2.2.2.2.2.2.2.2.2.1 hT
  · intro st t st2 hhv hT
    have hf := hv_facts st.ps st t st2 hhv
    by_cases hx1 : st.ps = ParsingState.PvBestmove
    · rw [hf.1 hx1]
      simp
    · by_cases hx2 : st.ps = ParsingState.PvPonder
      · rw [hf.2.1 hx2]
        simp
      · rw [hf.2.2.1 hx1 hx2]
        exact hT
  · intro t ht
    unfold keyOf
    split_ifs <;> simp_all

theorem parse_keeps_nodes (line : List Char) (a : AnalysisInfo)
    (hm : kNodes ∉ splitOnSpace line) :
    (AnalysisInfo.parse a line).nodes = a.nodes := by
  have h2 : parseTokens? (splitOnSpace line)
      { ps := ParsingState.Info, pvBuff := [], pvOn := false, slf := a } =
      some (a.parse line) := parse?_eq_parse a line
  refine frameGen (fun x => x.nodes) (fun ps => ps = ParsingState.Nodes) kNodes
    (fun x b => rfl) ?_ ?_ (by simp) ?_ (fun hs => ⟨by simp, by simp⟩)
    (splitOnSpace line) _ _ h2 hm (by simp)
  · intro st t st2 hhv hT
    exact (hv_facts st.ps st t st2 hhv).2.2.2.2.2.2.2.2.2.2.1 hT
  · intro st t st2 hhv hT
    have hf := hv_facts st.ps st t st2 hhv
    by_cases hx1 : st.ps = ParsingState.PvBestmove
    · rw [hf.1 hx1]
      simp
    · by_cases hx2 : st.ps = ParsingState.PvPonder
      · rw [hf.2.1 hx2]
        simp
      · rw [hf.2.2.1 hx1 hx2]
        exact hT
  · intro t ht
    unfold keyOf
    split_ifs <;> simp_all

theorem parse_keeps_time (line : List Char) (a : AnalysisInfo)
    (hm : kTime ∉ splitOnSpace line) :
    (AnalysisInfo.parse a line).time = a.time := by
  have h2 : parseTokens? (splitOnSpace line)
      { ps := ParsingState.Info, pvBuff := [], pvOn := false, slf := a } =
      some (a.parse line) := parse?_eq_parse a line
  refine frameGen (fun x => x.time) (fun ps => ps = ParsingState.Time) kTime
    (fun x b => rfl) ?_ ?_ (by simp) ?_ (fun hs => ⟨by simp, by simp⟩)
    (splitOnSpace line) _ _ h2 hm (by simp)
  · intro st t st2 hhv hT
    exact (hv_facts st.ps st t st2 hhv).2.2.2.2.2.2.2.2.2.2.2.1 hT
  · intro st t st2 hhv hT
    have hf := hv_facts st.ps st t st2 hhv
    by_cases hx1 : st.ps = ParsingState.PvBestmove
    · rw [hf.1 hx1]
      simp
    · by_cases hx2 : st.ps = ParsingState.PvPonder
      · rw [hf.2.1 hx2]
        simp
      · rw [hf.2.2.1 hx1 hx2]
        exact hT
  · intro t ht
    unfold keyOf
    split_ifs <;> simp_all

theorem parse_keeps_nps (line : List Char) (a : AnalysisInfo)
    (hm : kNps ∉ splitOnSpace line) :
    (AnalysisInfo.parse a line).nps = a.nps := by
  have h2 : parseTokens? (splitOnSpace line)
      { ps := ParsingState.Info, pvBuff := [], pvOn := false, slf := a } =
      some (a.parse line) := parse?_eq_parse a line
  refine frameGen (fun x => x.nps) (fun ps => ps = ParsingState.Nps) kNps
    (fun x b => rfl) ?_ ?_ (by simp) ?_ (fun hs => ⟨by simp, by simp⟩)
    (splitOnSpace line) _ _ h2 hm (by simp)
  · intro st t st2 hhv hT
    exact (hv_facts st.ps st t st2 hhv).2.2.2.2.2.2.2.2.2.2.2.2.1 hT
  · intro st t st2 hhv hT
    have hf := hv_facts st.ps st t st2 hhv
    by_cases hx1 : st.ps = ParsingState.PvBestmove
    · rw [hf.1 hx1]
      simp
    · by_cases hx2 : st.ps = ParsingState.PvPonder
      · rw [hf.2.1 hx2]
        simp
      · rw [hf.2.2.1 hx1 hx2]
        exact hT
  · intro t ht
    unfold keyOf
    split_ifs <;> simp_all

theorem parse_keeps_score (line : List Char) (a : AnalysisInfo)
    (hm : kScore ∉ splitOnSpace line) :
    (AnalysisInfo.parse a line).score = a.score := by
  have h2 : parseTokens? (splitOnSpace line)
      { ps := ParsingState.Info, pvBuff := [], pvOn := false, slf := a } =
      some (a.parse line) := parse?_eq_parse a line
  refine frameGen (fun x => x.score)
    (fun ps => ps = ParsingState.Score ∨ ps = ParsingState.ScoreCp ∨
      ps = ParsingState.ScoreMate) kScore
    (fun x b => rfl) ?_ ?_ (by simp) ?_ (fun hs => absurd (Or.inl rfl) hs)
    (splitOnSpace line) _ _ h2 hm (by simp)
  · intro st t st2 hhv hT
    exact (hv_facts st.ps st t st2 hhv).2.2.2.2.2.2.2.2.2.2.2.2.2.1
      (fun hc => hT (Or.inr (Or.inl hc))) (fun hc => hT (Or.inr (Or.inr hc)))
  · intro st t st2 hhv hT
    have hf := hv_facts st.ps st t st2 hhv
    by_cases hx1 : st.ps = ParsingState.PvBestmove
    · rw [hf.1 hx1]
      simp
    · by_cases hx2 : st.ps = ParsingState.PvPonder
      · rw [hf.2.1 hx2]
        simp
      · rw [hf.2.2.1 hx1 hx2]
        exact hT
  · intro t ht
    unfold keyOf
    split_ifs <;> simp_all

theorem parse_keeps_bestmove (line : List Char) (a : AnalysisInfo)
    (hm : kPv ∉ splitOnSpace line) :
    (AnalysisInfo.parse a line).bestmove = a.bestmove := by
  have h2 : parseTokens? (splitOnSpace line)
      { ps := ParsingState.Info, pvBuff := [], pvOn := false, slf := a } =
      some (a.parse line) := parse?_eq_parse a line
  refine frameGen (fun x => x.bestmove) (fun ps => ps = ParsingState.PvBestmove) kPv
    (fun x b => rfl) ?_ ?_ (by simp) ?_ (fun hs => ⟨by simp, by simp⟩)
    (splitOnSpace line) _ _ h2 hm (by simp)
  · intro st t st2 hhv hT
    exact (hv_facts st.ps st t st2 hhv).2.2.2.2.2.2.2.2.2.2.2.2.2.2.1 hT
  · intro st t st2 hhv hT
    have hf := hv_facts st.ps st t st2 hhv
    by_cases hx2 : st.ps = ParsingState.PvPonder
    · rw [hf.2.1 hx2]
      simp
    · rw [hf.2.2.1 hT hx2]
      exact hT
  · intro t ht
    unfold keyOf
    split_ifs <;> simp_all

theorem parse_keeps_ponder (line : List Char) (a : AnalysisInfo)
    (hm : kPv ∉ splitOnSpace line) :
    (AnalysisInfo.parse a line).ponder = a.ponder := by
  have h2 : parseTokens? (splitOnSpace line)
      { ps := ParsingState.Info, pvBuff := [], pvOn := false, slf := a } =
      some (a.parse line) := parse?_eq_parse a line
  refine frameGen (fun x => x.ponder)
    (fun ps => ps = ParsingState.PvBestmove ∨ ps = ParsingState.PvPonder) kPv
    (fun x b => rfl) ?_ ?_ (by simp) ?_ (fun hs => ⟨by simp, by simp⟩)
    (splitOnSpace line) _ _ h2 hm (by simp)
  · intro st t st2 hhv hT
    exact (hv_facts st.ps st t st2 hhv).2.2.2.2.2.2.2.2.2.2.2.2.2.2.2
      (fun hc => hT (Or.inr hc))
  · intro st t st2 hhv hT
    have hf := hv_facts st.ps st t st2 hhv
    have hx1 : st.ps ≠ ParsingState.PvBestmove := fun hc => hT (Or.inl hc)
    have hx2 : st.ps ≠ ParsingState.PvPonder := fun hc => hT (Or.inr hc)
    rw [hf.2.2.1 hx1 hx2]
    exact hT
  · intro t ht
    unfold keyOf
    split_ifs <;> simp_all

theorem parse_pv_frame (line : List Char) (a : AnalysisInfo)
    (hm : kPv ∉ splitOnSpace line) :
    (AnalysisInfo.parse a line).pv = a.pv ∨
      (AnalysisInfo.parse a line).pv = StrBuff.new PV_BUFF_SIZE := by
  have h2 : parseTokens? (splitOnSpace line)
      { ps := ParsingState.Info, pvBuff := [], pvOn := false, slf := a } =
      some (a.parse line) := parse?_eq_parse a line
  have h := parseTokens?_pv (splitOnSpace line)
    { ps := ParsingState.Info, pvBuff := [], pvOn := false, slf := a }
    (a.parse line) h2 hm (by simp) (by simp) (by simp)
  rcases h with h | h
  · exact Or.inl h
  · refine Or.inr ?_
    rw [strBuffFrom?_eq] at h
    injection h with h3
    rw [← h3]
    rfl

/-- C1 (amended): every non-pv field with no corresponding key token in
the line keeps its prior value (bestmove and ponder keep theirs when the
line has no `pv` key); the `pv` field either keeps its prior value (when
the parse aborts early) or is overwritten with the buffer built from the
accumulated pv text, which is the empty buffer when the line has no `pv`
key. -/
theorem parse_frame_per_field (line : List Char) (a : AnalysisInfo) :
    (kMultipv ∉ splitOnSpace line →
      (AnalysisInfo.parse a line).multipv = a.multipv) ∧
    (kDepth ∉ splitOnSpace line → (AnalysisInfo.parse a line).depth = a.depth) ∧
    (kSeldepth ∉ splitOnSpace line →
      (AnalysisInfo.parse a line).seldepth = a.seldepth) ∧
    (kTbhits ∉ splitOnSpace line → (AnalysisInfo.parse a line).tbhits = a.tbhits) ∧
    (kNodes ∉ splitOnSpace line → (AnalysisInfo.parse a line).nodes = a.nodes) ∧
    (kTime ∉ splitOnSpace line → (AnalysisInfo.parse a line).time = a.time) ∧
    (kNps ∉ splitOnSpace line → (AnalysisInfo.parse a line).nps = a.nps) ∧
    (kScore ∉ splitOnSpace line → (AnalysisInfo.parse a line).score = a.score) ∧
    (kPv ∉ splitOnSpace line →
      (AnalysisInfo.parse a line).bestmove = a.bestmove ∧
      (AnalysisInfo.parse a line).ponder = a.ponder ∧
      ((AnalysisInfo.parse a line).pv = a.pv ∨
        (AnalysisInfo.parse a line).pv = StrBuff.new PV_BUFF_SIZE)) :=
  ⟨parse_keeps_multipv line a, parse_keeps_depth line a, parse_keeps_seldepth line a,
   parse_keeps_tbhits line a, parse_keeps_nodes line a, parse_keeps_time line a,
   parse_keeps_nps line a, parse_keeps_score line a,
   fun hm => ⟨parse_keeps_bestmove line a hm, parse_keeps_ponder line a hm,
     parse_pv_frame line a hm⟩⟩

/-- Witness for the amended C1 theorem at a concrete line and record. -/
theorem parse_frame_per_field_witness :
    (AnalysisInfo.parse aSample lineBestmove).depth = aSample.depth :=
  (parse_frame_per_field lineBestmove aSample).2.1 (by decide)

/-- C1 (counterexample): the line `info depth 1` contains no `pv` token,
yet parsing it over a record whose pv buffer is nonempty clears the pv
field — the final `self.pv = PvBuff::from(pv_buff)` store runs on every
line that parses to completion. -/
theorem parse_pv_cleared_counterexample :
    kPv ∉ splitOnSpace lineDepthOnly ∧
    (AnalysisInfo.parse aSample lineDepthOnly).pv ≠ aSample.pv := by decide

/-- C2: `parse` is total — the checked variant (in which every internal
slice copy that could fail fatally returns `Option`) succeeds on every
input line and starting record, returning the same record the total
function computes: no input makes the decoder fail its caller. -/
theorem parse_never_fails (a : AnalysisInfo) (line : List Char) :
    a.parse? line = some (a.parse line) :=
  parse?_eq_parse a line

/-- C3: the spec's example line decodes to the stated field values. -/
theorem parse_example_line :
    (AnalysisInfo.parse AnalysisInfo.new lineExample).depth = 12 ∧
    (AnalysisInfo.parse AnalysisInfo.new lineExample).seldepth = 18 ∧
    (AnalysisInfo.parse AnalysisInfo.new lineExample).multipv = 1 ∧
    (AnalysisInfo.parse AnalysisInfo.new lineExample).score = Score.Cp 34 ∧
    (AnalysisInfo.parse AnalysisInfo.new lineExample).nodes = 100000 ∧
    (AnalysisInfo.parse AnalysisInfo.new lineExample).nps = 50000 ∧
    (AnalysisInfo.parse AnalysisInfo.new lineExample).time = 2000 ∧
    (AnalysisInfo.parse AnalysisInfo.new lineExample).bestmoveOpt = some (some sE2e4) ∧
    (AnalysisInfo.parse AnalysisInfo.new lineExample).ponderOpt = some (some sE7e5) ∧
    (AnalysisInfo.parse AnalysisInfo.new lineExample).pvOpt = some (some sPvText) := by
  decide

/-- C4: a numeric value token that fails to parse leaves the field at its
prior value (the handling step returns the state unchanged), parsing
continues with the next token in key position, and later key/value pairs
are still applied: `info depth notanumber nodes 500` keeps `depth` and
sets `nodes` to 500, for every starting record. -/
theorem parse_numeric_recover (st : LoopSt) (t : List Char)
    (rest : List (List Char)) (a : AnalysisInfo) (hpv : st.pvOn = false)
    (hps : ((st.ps = ParsingState.Multipv ∨ st.ps = ParsingState.Depth ∨
        st.ps = ParsingState.Seldepth ∨ st.ps = ParsingState.Tbhits ∨
        st.ps = ParsingState.Nodes ∨ st.ps = ParsingState.Time ∨
        st.ps = ParsingState.Nps) ∧ parseU64 t = none) ∨
      ((st.ps = ParsingState.ScoreCp ∨ st.ps = ParsingState.ScoreMate) ∧
        parseI32 t = none)) :
    handleValue? st.ps st t = some st ∧
    parseTokens? (t :: rest) st =
      parseTokens? rest { st with ps := ParsingState.Key } ∧
    (AnalysisInfo.parse a lineBadDepth).depth = a.depth ∧
    (AnalysisInfo.parse a lineBadDepth).nodes = 500 := by
  have hc1 : handleValue? st.ps st t = some st := by
    rcases hps with ⟨hx9, hU⟩ | ⟨hx2, hI⟩
    · rcases hx9 with hx | hx | hx | hx | hx | hx | hx <;>
        (rw [hx]; simp only [handleValue?, parseUsize, hU])
    · rcases hx2 with hx | hx <;>
        (rw [hx]; simp only [handleValue?, hI])
  refine ⟨hc1, ?_, rfl, rfl⟩
  rw [parseTokens?]
  have hx11 : st.ps = ParsingState.Multipv ∨ st.ps = ParsingState.Depth ∨
      st.ps = ParsingState.Seldepth ∨ st.ps = ParsingState.Tbhits ∨
      st.ps = ParsingState.Nodes ∨ st.ps = ParsingState.Time ∨
      st.ps = ParsingState.Nps ∨ st.ps = ParsingState.ScoreCp ∨
      st.ps = ParsingState.ScoreMate := by
    rcases hps with ⟨hx9, _⟩ | ⟨hx2, _⟩
    · rcases hx9 with hx | hx | hx | hx | hx | hx | hx <;> simp [hx]
    · rcases hx2 with hx | hx <;> simp [hx]
  rcases hx11 with hx | hx | hx | hx | hx | hx | hx | hx | hx <;>
    (rw [hx] at hc1 ⊢
     dsimp only
     rw [hc1]
     rw [Option.some_bind]
     simp [hpv])

/-- Witness for C4 at a concrete state, token and record. -/
theorem parse_numeric_recover_witness :
    handleValue? stDepth0.ps stDepth0 tokX = some stDepth0 ∧
    parseTokens? (tokX :: []) stDepth0 =
      parseTokens? [] { stDepth0 with ps := ParsingState.Key } ∧
    (AnalysisInfo.parse AnalysisInfo.new lineBadDepth).depth =
      AnalysisInfo.new.depth ∧
    (AnalysisInfo.parse AnalysisInfo.new lineBadDepth).nodes = 500 :=
  parse_numeric_recover stDepth0 tokX [] AnalysisInfo.new (by decide) (by decide)

/-- C5: a line whose first token is not `info`, and a line of the form
`info string ...`, leave every field of the record at its prior value. -/
theorem parse_reject (line : List Char) (a : AnalysisInfo) :
    ((splitOnSpace line).head? ≠ some kInfo → AnalysisInfo.parse a line = a) ∧
    (∀ rest, splitOnSpace line = kInfo :: kString :: rest →
      AnalysisInfo.parse a line = a) := by
  constructor
  · intro hh
    cases hsp : splitOnSpace line with
    | nil => exact absurd hsp (splitOnSpace_ne_nil line)
    | cons t ts =>
      rw [hsp] at hh
      have ht : t ≠ kInfo := by simpa using hh
      unfold AnalysisInfo.parse AnalysisInfo.parse?
      rw [hsp]
      rw [parseTokens?]
      dsimp only
      rw [if_neg ht]
      rfl
  · intro rest hsp
    unfold AnalysisInfo.parse AnalysisInfo.parse?
    rw [hsp]
    rw [parseTokens?]
    dsimp only
    rw [if_pos rfl]
    rw [parseTokens?]
    dsimp only
    rw [if_pos rfl]
    rfl

/-- Witness for C5 at a concrete non-info line and record. -/
theorem parse_reject_witness : AnalysisInfo.parse aSample lineBestmove = aSample :=
  (parse_reject lineBestmove aSample).1 (by decide)

/-- C6: in the `Score` state, a token that is neither `cp` nor `mate`
makes the whole parse stop at that point: the record as mutated so far is
the final result, whatever tokens follow; concretely, on
`info depth 7 score bad nodes 9` the earlier `depth 7` write survives and
the later `nodes 9` pair is never applied. -/
theorem parse_bad_score_spec (st : LoopSt) (t : List Char) (ts : List (List Char))
    (h1 : st.ps = ParsingState.Score) (h2 : t ≠ kCp) (h3 : t ≠ kMate) :
    parseTokens? (t :: ts) st = some st.slf ∧
    (AnalysisInfo.parse AnalysisInfo.new lineBadScore).depth = 7 ∧
    (AnalysisInfo.parse AnalysisInfo.new lineBadScore).nodes = 0 := by
  refine ⟨?_, by decide, by decide⟩
  rw [parseTokens?]
  rw [h1]
  dsimp only
  rw [if_neg h2]
  rw [if_neg h3]

/-- Witness for C6 at a concrete state and token. -/
theorem parse_bad_score_spec_witness :
    parseTokens? (tokX :: []) stScore0 = some stScore0.slf ∧
    (AnalysisInfo.parse AnalysisInfo.new lineBadScore).depth = 7 ∧
    (AnalysisInfo.parse AnalysisInfo.new lineBadScore).nodes = 0 :=
  parse_bad_score_spec stScore0 tokX [] rfl (by decide) (by decide)

/-- C7: constructing a bounded buffer from a string whose byte length is
within the capacity and converting back to text yields the original
string unchanged (for any capacity, in particular `UciBuff`'s 5 and
`PvBuff`'s 10). -/
theorem buff_roundtrip (N : Nat) (s : List Char) (b : StrBuff)
    (hlen : (utf8Encode s).length ≤ N) (hb : strBuffFrom? N s = some b) :
    strBuffToString? b = some s := by
  rw [strBuffFrom?_eq] at hb
  have hbv := (Option.some.inj hb).symm
  have hfl : fromLen N s = (utf8Encode s).length := by
    unfold fromLen
    split <;> omega
  rw [hbv]
  unfold strBuffToString?
  dsimp only
  rw [take_fromLen_buff]
  rw [hfl]
  rw [List.take_length]
  exact utf8Decode_encode s

/-- Witness for C7 on the move `e2e4` into a `UciBuff`. -/
theorem buff_roundtrip_witness : strBuffToString? bE2e4 = some sE2e4 :=
  buff_roundtrip UCI_MAX_LENGTH sE2e4 bE2e4 (by decide) (by decide)

/-- C8 (amended): `set` never fails fatally, stores
`len = min(byte length, capacity)` and the first `len` bytes of the
input; `to_opt` returns `None` exactly when the stored length is zero,
and when the stored length is nonzero it returns `Some` of the decoded
text if the stored bytes are valid UTF-8 (and fails fatally otherwise —
see the counterexample). -/
theorem set_stores_truncation (N : Nat) (b : StrBuff) (s : List Char)
    (hb : b.buff.length = N) :
    ∃ b2, strBuffSet? N b s = some b2 ∧
      b2.len = min (utf8Encode s).length N ∧
      b2.buff.take b2.len = (utf8Encode s).take b2.len ∧
      (toOpt? b2 = some none ↔ b2.len = 0) ∧
      (b2.len ≠ 0 →
        toOpt? b2 = (utf8Decode (b2.buff.take b2.len)).map (fun t => some t)) := by
  refine ⟨⟨fromLen N s,
    (utf8Encode s).take (fromLen N s) ++ b.buff.drop (fromLen N s)⟩,
    strBuffSet?_eq N b s hb, ?_, ?_, ?_, ?_⟩
  · show fromLen N s = min (utf8Encode s).length N
    unfold fromLen
    split <;> omega
  · exact take_fromLen_buff N s _
  · show toOpt? _ = some none ↔ fromLen N s = 0
    unfold toOpt?
    dsimp only
    constructor
    · intro h
      by_cases hz : fromLen N s = 0
      · exact hz
      · rw [if_neg hz] at h
        cases hdec : strBuffToString? _ with
        | none => rw [hdec] at h; exact absurd h (by simp)
        | some u => rw [hdec] at h; simp at h
    · intro h
      rw [if_pos h]
  · intro hnz
    show toOpt? _ = _
    unfold toOpt?
    dsimp only
    rw [if_neg hnz]
    rfl

/-- Witness for the amended C8 theorem on `e2e4` into a fresh `UciBuff`. -/
theorem set_stores_truncation_witness :
    ∃ b2, strBuffSet? UCI_MAX_LENGTH (StrBuff.new UCI_MAX_LENGTH) sE2e4 = some b2 ∧
      b2.len = min (utf8Encode sE2e4).length UCI_MAX_LENGTH ∧
      b2.buff.take b2.len = (utf8Encode sE2e4).take b2.len ∧
      (toOpt? b2 = some none ↔ b2.len = 0) ∧
      (b2.len ≠ 0 →
        toOpt? b2 = (utf8Decode (b2.buff.take b2.len)).map (fun t => some t)) :=
  set_stores_truncation UCI_MAX_LENGTH (StrBuff.new UCI_MAX_LENGTH) sE2e4 (by decide)

/-- C8 (counterexample): after `set`-ting `aaaaé` (six bytes) into a
five-byte `UciBuff`, the stored length is nonzero yet `to_opt` fails
fatally instead of returning `Some`: the claim's `Some otherwise` does
not hold as stated. -/
theorem toOpt_fatal_counterexample :
    strBuffSet? UCI_MAX_LENGTH (StrBuff.new UCI_MAX_LENGTH) sSplitCut = some bSplitSet ∧
    bSplitSet.len ≠ 0 ∧
    toOpt? bSplitSet = none := by decide

/-- C9: `aaaaé` is longer than `UciBuff`'s capacity and its truncation at
five bytes splits the two-byte encoding of `é`; constructing the buffer
succeeds, but converting it back to a `String` fails fatally. -/
theorem from_truncation_fatal :
    UCI_MAX_LENGTH < (utf8Encode sSplitCut).length ∧
    strBuffFrom? UCI_MAX_LENGTH sSplitCut = some bSplitFrom ∧
    strBuffToString? bSplitFrom = none := by decide

/-- C10: on six copies of the two-byte `é` with no space anywhere, the
reverse scan of `set_trim` never stops and leaves `total_len = 6`, which
exceeds the five-byte capacity, so the copy into `buff[0..6]` indexes
past the array's end — a fatal failure. -/
theorem set_trim_oob :
    setTrimTotal UCI_MAX_LENGTH ' ' sSixAccents.reverse
      (utf8Encode sSixAccents).length = 6 ∧
    (StrBuff.new UCI_MAX_LENGTH).buff.length < 6 ∧
    strBuffSetTrim? UCI_MAX_LENGTH (StrBuff.new UCI_MAX_LENGTH) sSixAccents ' ' =
      none := by
  decide
